import Mathlib

/-!
Verification development for the cvxpy-based MPC reference script
(test_scripts/cvx_mpc_reference_governor_du.py).

The script builds, once, a parametric quadratic program for a linear
plant x(k+1) = Ad x(k) + Bd u(k), y(k) = Cd x(k) (the script computes a
Dd matrix but never uses it), and then runs a closed-loop simulation
that at every step assigns the two parameters x_init and uminus1,
solves the QP, extracts u[:, 0].value, applies it to the plant and
records the traces ysim, usim, xsim.

The real scalars of the script are modelled by an arbitrary linearly
ordered commutative ring α (concrete instances below use ℤ).  The
bound arrays of the script are length-1 numpy arrays broadcast
elementwise, so they are modelled as scalars applied to every
component.  The QP solver is modelled as an oracle returning the
values of the variables x and u on success and none on failure; a
failed solve makes the loop abort (in the script the extracted value
is None and its use raises, ending the run).
-/

namespace MPC

/-- Vectors with n components. -/
abbrev Vec (α : Type) (n : ℕ) := Fin n → α

/-- Matrices with m rows and n columns. -/
abbrev Mat (α : Type) (m n : ℕ) := Fin m → Fin n → α

variable {α : Type} [LinearOrderedCommRing α]

/-- Matrix-vector product, as in the script's `@` products. -/
def mulVec {m n : ℕ} (A : Mat α m n) (v : Vec α n) : Vec α m :=
  fun i => ∑ j, A i j * v j

/-- cvxpy quad_form: quad_form(v, Q) = vᵀ Q v. -/
def quad_form {n : ℕ} (v : Vec α n) (Q : Mat α n n) : α :=
  ∑ i, ∑ j, v i * Q i j * v j

/-- The fixed data of the script: plant matrices, weights, bounds,
reference and horizon.  The bound arrays of the script are length-1
and broadcast, hence scalars here.  Dd is part of the plant data but
is never used by the formulator or the simulation loop. -/
@[ext] structure MPCConfig (α : Type) (nx nu ny : ℕ) where
  Ad : Mat α nx nx
  Bd : Mat α nx nu
  Cd : Mat α ny nx
  Dd : Mat α ny nu
  Qy : Mat α ny ny
  QyN : Mat α ny ny
  Qu : Mat α nu nu
  QDu : Mat α nu nu
  r : α
  ymin : α
  ymax : α
  umin : α
  umax : α
  Dumin : α
  Dumax : α
  Np : ℕ

/-- The input-rate term added to the objective at stage k: the
`if k > 0 ... else ...` of the script's loop. -/
def rateCost {nx nu ny : ℕ} (cfg : MPCConfig α nx nu ny) (uminus1 : Vec α nu)
    (u : ℕ → Vec α nu) (k : ℕ) : α :=
  if 0 < k then quad_form (u k - u (k - 1)) cfg.QDu
  else quad_form (u k - uminus1) cfg.QDu

/-- The tracking error y[:, k] - r of the script, with y = Cd @ x. -/
def yErr {nx nu ny : ℕ} (cfg : MPCConfig α nx nu ny) (x : ℕ → Vec α nx) (k : ℕ) :
    Vec α ny :=
  fun i => mulVec cfg.Cd (x k) i - cfg.r

/-- The minimized objective, exactly as accumulated by the script's
loop: for k = 0 .. Np-1 the rate term, the tracking term
quad_form(y[:, k] - r, Qy) and the effort term quad_form(u[:, k], Qu),
plus the terminal term quad_form(y[:, Np] - r, QyN). -/
def objective {nx nu ny : ℕ} (cfg : MPCConfig α nx nu ny) (uminus1 : Vec α nu)
    (x : ℕ → Vec α nx) (u : ℕ → Vec α nu) : α :=
  (∑ k in Finset.range cfg.Np,
    (rateCost cfg uminus1 u k + quad_form (yErr cfg x k) cfg.Qy
      + quad_form (u k) cfg.Qu))
  + quad_form (yErr cfg x cfg.Np) cfg.QyN

/-- The constraints appended by iteration k of the script's loop:
dynamics x[:, k+1] == Ad@x[:, k] + Bd@u[:, k], the state interval
constraint ymin <= x[:, k] <= ymax (broadcast over the state
components), the input interval constraint umin <= u[:, k] <= umax,
and the rate constraint (against uminus1 at k = 0). -/
def stepConstraints {nx nu ny : ℕ} (cfg : MPCConfig α nx nu ny) (uminus1 : Vec α nu)
    (x : ℕ → Vec α nx) (u : ℕ → Vec α nu) (k : ℕ) : Prop :=
  x (k + 1) = mulVec cfg.Ad (x k) + mulVec cfg.Bd (u k)
  ∧ (∀ j, cfg.ymin ≤ x k j) ∧ (∀ j, x k j ≤ cfg.ymax)
  ∧ (∀ j, cfg.umin ≤ u k j) ∧ (∀ j, u k j ≤ cfg.umax)
  ∧ (if 0 < k
      then (∀ j, cfg.Dumin ≤ u k j - u (k - 1) j) ∧ (∀ j, u k j - u (k - 1) j ≤ cfg.Dumax)
      else (∀ j, cfg.Dumin ≤ u k j - uminus1 j) ∧ (∀ j, u k j - uminus1 j ≤ cfg.Dumax))

/-- All constraints of the script's QP: the initial equality
x[:, 0] == x_init followed by the constraints of every loop
iteration k = 0 .. Np-1. -/
def constraintsHold {nx nu ny : ℕ} (cfg : MPCConfig α nx nu ny) (x_init : Vec α nx)
    (uminus1 : Vec α nu) (x : ℕ → Vec α nx) (u : ℕ → Vec α nu) : Prop :=
  x 0 = x_init ∧ ∀ k < cfg.Np, stepConstraints cfg uminus1 x u k

instance decIte (c t e : Prop) [hc : Decidable c] [ht : Decidable t] [he : Decidable e] :
    Decidable (if c then t else e) :=
  match hc with
  | Decidable.isTrue _ => ht
  | Decidable.isFalse _ => he

instance decStepConstraints {nx nu ny : ℕ} (cfg : MPCConfig α nx nu ny)
    (uminus1 : Vec α nu) (x : ℕ → Vec α nx) (u : ℕ → Vec α nu) (k : ℕ) :
    Decidable (stepConstraints cfg uminus1 x u k) := by
  unfold stepConstraints
  infer_instance

instance decConstraintsHold {nx nu ny : ℕ} (cfg : MPCConfig α nx nu ny)
    (x_init : Vec α nx) (uminus1 : Vec α nu) (x : ℕ → Vec α nx) (u : ℕ → Vec α nu) :
    Decidable (constraintsHold cfg x_init uminus1 x u) := by
  unfold constraintsHold
  infer_instance

/-- The parametric problem object: the fixed structure (all matrices,
bounds and the horizon) together with the two parameter values
x_init and uminus1 that are reassigned before every solve. -/
structure QPInstance (α : Type) (nx nu ny : ℕ) where
  data : MPCConfig α nx nu ny
  x_init : Vec α nx
  uminus1 : Vec α nu

/-- A QP solver oracle: given the problem instance it either returns
the values of the variables (x, u) or fails (infeasible or numerical
failure). -/
abbrev Solver (α : Type) (nx nu ny : ℕ) :=
  QPInstance α nx nu ny → Option ((ℕ → Vec α nx) × (ℕ → Vec α nu))

/-- The mutable state of the closed-loop simulation: the problem
object, the current plant state x0, the previously applied input uMPC
and the preallocated (zero-initialised) traces. -/
structure SimState (α : Type) (nx nu ny : ℕ) where
  prob : QPInstance α nx nu ny
  x0 : Vec α nx
  uMPC : Vec α nu
  ysim : ℕ → Vec α ny
  usim : ℕ → Vec α nu
  xsim : ℕ → Vec α nx

/-- The problem object after the two parameter assignments
x_init.value = x0 and uminus1.value = uMPC of iteration i. -/
def probAt {nx nu ny : ℕ} (s : SimState α nx nu ny) : QPInstance α nx nu ny :=
  { s.prob with x_init := s.x0, uminus1 := s.uMPC }

/-- One iteration of the simulation loop at index i: record
ysim[i, :] = Cd @ x0, assign the parameters, solve; on success extract
u[:, 0].value, record it, advance the plant and record the new state.
On failure the iteration stops with what was already written (in the
script the None value raises on use, aborting the run). -/
def simStep {nx nu ny : ℕ} (cfg : MPCConfig α nx nu ny) (solver : Solver α nx nu ny)
    (i : ℕ) (s : SimState α nx nu ny) : SimState α nx nu ny × Bool :=
  match solver (probAt s) with
  | none =>
    ({ s with ysim := Function.update s.ysim i (mulVec cfg.Cd s.x0),
              prob := probAt s }, false)
  | some (_, uv) =>
    ({ s with ysim := Function.update s.ysim i (mulVec cfg.Cd s.x0),
              prob := probAt s,
              x0 := mulVec cfg.Ad s.x0 + mulVec cfg.Bd (uv 0),
              uMPC := uv 0,
              usim := Function.update s.usim i (uv 0),
              xsim := Function.update s.xsim i (mulVec cfg.Ad s.x0 + mulVec cfg.Bd (uv 0)) },
     true)

/-- Running the first n iterations of the loop.  The Bool records
whether every solve so far succeeded; after a failure the state is
frozen (the script's run has aborted). -/
def simRun {nx nu ny : ℕ} (cfg : MPCConfig α nx nu ny) (solver : Solver α nx nu ny)
    (s0 : SimState α nx nu ny) : ℕ → SimState α nx nu ny × Bool
  | 0 => (s0, true)
  | n + 1 =>
    let p := simRun cfg solver s0 n
    if p.2 = true then simStep cfg solver n p.1 else p

/-- The state before the loop: prob is built once from the fixed data
(its parameters still unset, modelled as zero), the plant starts at
x0, uMPC = uinit, and the traces are the preallocated zero arrays. -/
def initState {nx nu ny : ℕ} (cfg : MPCConfig α nx nu ny) (x0 : Vec α nx)
    (uinit : Vec α nu) : SimState α nx nu ny :=
  { prob := { data := cfg, x_init := fun _ => 0, uminus1 := fun _ => 0 },
    x0 := x0, uMPC := uinit,
    ysim := fun _ _ => 0, usim := fun _ _ => 0, xsim := fun _ _ => 0 }

/-- The simulation state after n loop iterations. -/
def runState {nx nu ny : ℕ} (cfg : MPCConfig α nx nu ny) (solver : Solver α nx nu ny)
    (x0 : Vec α nx) (uinit : Vec α nu) (n : ℕ) : SimState α nx nu ny :=
  (simRun cfg solver (initState cfg x0 uinit) n).1

/-- Whether every solve in the first n iterations succeeded. -/
def runOk {nx nu ny : ℕ} (cfg : MPCConfig α nx nu ny) (solver : Solver α nx nu ny)
    (x0 : Vec α nx) (uinit : Vec α nu) (n : ℕ) : Bool :=
  (simRun cfg solver (initState cfg x0 uinit) n).2

/-- The state trajectory determined by an initial state and an input
trajectory through the plant dynamics. -/
def predTraj {nx nu ny : ℕ} (cfg : MPCConfig α nx nu ny) (xi : Vec α nx)
    (u : ℕ → Vec α nu) : ℕ → Vec α nx
  | 0 => xi
  | k + 1 => mulVec cfg.Ad (predTraj cfg xi u k) + mulVec cfg.Bd (u k)

/-- The input applied one sample before step i of the closed loop:
uinit at i = 0 and the recorded input of step i-1 afterwards. -/
def prevApplied {nu : ℕ} (uinit : Vec α nu) (us : ℕ → Vec α nu) (i : ℕ) : Vec α nu :=
  if i = 0 then uinit else us (i - 1)

/-- Written from the spec's words, for comparison with the code's
constraints: the inequality constraints of the QP bound the predicted
output, ymin ≤ Cd xₖ + Dd uₖ ≤ ymax for every k = 0 .. Np-1. -/
def specOutputBounds {nx nu ny : ℕ} (cfg : MPCConfig α nx nu ny)
    (x : ℕ → Vec α nx) (u : ℕ → Vec α nu) : Prop :=
  ∀ k < cfg.Np, ∀ i,
    cfg.ymin ≤ mulVec cfg.Cd (x k) i + mulVec cfg.Dd (u k) i ∧
    mulVec cfg.Cd (x k) i + mulVec cfg.Dd (u k) i ≤ cfg.ymax

instance decSpecOutputBounds {nx nu ny : ℕ} (cfg : MPCConfig α nx nu ny)
    (x : ℕ → Vec α nx) (u : ℕ → Vec α nu) : Decidable (specOutputBounds cfg x u) := by
  unfold specOutputBounds
  infer_instance

/-- Written from the spec's words, for comparison with the code's
constraints: equalities x₀ = x_init and the dynamics, the interval
bounds, and the rate constraints exactly as the spec lists them —
u₀ - u₋₁ bounded at k = 0 and uₖ - uₖ₋₁ bounded for k = 1 .. Np-1,
with no rate constraint reaching beyond the horizon. -/
def specConstraints {nx nu ny : ℕ} (cfg : MPCConfig α nx nu ny) (x_init : Vec α nx)
    (uminus1 : Vec α nu) (x : ℕ → Vec α nx) (u : ℕ → Vec α nu) : Prop :=
  (x 0 = x_init ∧ ∀ k < cfg.Np, x (k + 1) = mulVec cfg.Ad (x k) + mulVec cfg.Bd (u k)) ∧
  (∀ k < cfg.Np,
    (∀ j, cfg.ymin ≤ x k j) ∧ (∀ j, x k j ≤ cfg.ymax) ∧
    (∀ j, cfg.umin ≤ u k j) ∧ (∀ j, u k j ≤ cfg.umax)) ∧
  ((∀ j, cfg.Dumin ≤ u 0 j - uminus1 j) ∧ (∀ j, u 0 j - uminus1 j ≤ cfg.Dumax)) ∧
  (∀ k < cfg.Np, 1 ≤ k →
    (∀ j, cfg.Dumin ≤ u k j - u (k - 1) j) ∧ (∀ j, u k j - u (k - 1) j ≤ cfg.Dumax))

/-- The predicted output of the plant model at stage k, as the spec
defines it: yₖ = C xₖ + D uₖ. -/
def specOutput {nx nu ny : ℕ} (cfg : MPCConfig α nx nu ny)
    (x : ℕ → Vec α nx) (u : ℕ → Vec α nu) (k : ℕ) : Vec α ny :=
  fun i => mulVec cfg.Cd (x k) i + mulVec cfg.Dd (u k) i

/-- Written from the spec's words, for comparison with the code's
objective: output tracking over k = 0 .. Np-1 plus the terminal term,
input effort over k = 0 .. Np-1, and the rate penalty with the k = 0
term against the parametric previous input. -/
def specObjective {nx nu ny : ℕ} (cfg : MPCConfig α nx nu ny) (uminus1 : Vec α nu)
    (x : ℕ → Vec α nx) (u : ℕ → Vec α nu) : α :=
  (∑ k in Finset.range cfg.Np, quad_form (fun i => specOutput cfg x u k i - cfg.r) cfg.Qy)
  + quad_form (yErr cfg x cfg.Np) cfg.QyN
  + (∑ k in Finset.range cfg.Np, quad_form (u k) cfg.Qu)
  + (quad_form (u 0 - uminus1) cfg.QDu
     + ∑ k in Finset.Ico 1 cfg.Np, quad_form (u k - u (k - 1)) cfg.QDu)

/-- A solver oracle built from a candidate trajectory map: it returns
the candidate when the candidate satisfies the QP's constraints at the
given parameter values, and fails otherwise.  Every value it returns
is therefore feasible. -/
def feasSolver {nx nu ny : ℕ}
    (cand : QPInstance α nx nu ny → (ℕ → Vec α nx) × (ℕ → Vec α nu)) :
    Solver α nx nu ny :=
  fun p =>
    if constraintsHold p.data p.x_init p.uminus1 (cand p).1 (cand p).2
    then some (cand p) else none

/-- The candidate that always proposes the zero input trajectory and
the state trajectory the dynamics force from it. -/
def zeroCand {nx nu ny : ℕ} :
    QPInstance α nx nu ny → (ℕ → Vec α nx) × (ℕ → Vec α nu) :=
  fun p => (predTraj p.data p.x_init (fun _ => 0), fun _ _ => 0)

/-- A solver oracle that always fails. -/
def noneSolver {nx nu ny : ℕ} : Solver α nx nu ny := fun _ => none

/-- A small concrete configuration: two states, one input, one output,
horizon 1, Cd = [2 0], Dd = 0, all bounds ±1. -/
def cfgC1 : MPCConfig ℤ 2 1 1 :=
  { Ad := fun _ _ => 0, Bd := fun _ _ => 0,
    Cd := fun _ j => if j.val = 0 then 2 else 0, Dd := fun _ _ => 0,
    Qy := fun _ _ => 0, QyN := fun _ _ => 0, Qu := fun _ _ => 0, QDu := fun _ _ => 0,
    r := 0, ymin := -1, ymax := 1, umin := -1, umax := 1,
    Dumin := -1, Dumax := 1, Np := 1 }

/-- Concrete parameter value x_init = (1, 0). -/
def xinitC1 : Vec ℤ 2 := fun j => if j.val = 0 then 1 else 0

/-- Concrete parameter value u₋₁ = 0. -/
def um1C1 : Vec ℤ 1 := fun _ => 0

/-- Concrete state trajectory: (1, 0) at k = 0, then 0. -/
def xC1 : ℕ → Vec ℤ 2 := fun k => if k = 0 then xinitC1 else fun _ => 0

/-- Concrete input trajectory: identically 0. -/
def uC1 : ℕ → Vec ℤ 1 := fun _ _ => 0

/-- A minimal concrete configuration with one state, one input, one
output, zero dynamics, horizon 1 and all bounds ±1, used to run the
closed loop with the feasibility-checking oracle. -/
def cfgW : MPCConfig ℤ 1 1 1 :=
  { Ad := fun _ _ => 0, Bd := fun _ _ => 0, Cd := fun _ _ => 0, Dd := fun _ _ => 0,
    Qy := fun _ _ => 0, QyN := fun _ _ => 0, Qu := fun _ _ => 0, QDu := fun _ _ => 0,
    r := 0, ymin := -1, ymax := 1, umin := -1, umax := 1,
    Dumin := -1, Dumax := 1, Np := 1 }

/-- Concrete initial plant state 0. -/
def x0W : Vec ℤ 1 := fun _ => 0

/-- Concrete initial previous input 0. -/
def uiW : Vec ℤ 1 := fun _ => 0

section LoopLemmas

variable {nx nu ny : ℕ} (cfg : MPCConfig α nx nu ny) (solver : Solver α nx nu ny)
variable (s0 : SimState α nx nu ny)

theorem simRun_zero : simRun cfg solver s0 0 = (s0, true) := rfl

theorem simRun_succ_true {n : ℕ} (h : (simRun cfg solver s0 n).2 = true) :
    simRun cfg solver s0 (n + 1) = simStep cfg solver n (simRun cfg solver s0 n).1 := by
  rw [simRun]
  simp [h]

theorem simRun_succ_false {n : ℕ} (h : (simRun cfg solver s0 n).2 = false) :
    simRun cfg solver s0 (n + 1) = simRun cfg solver s0 n := by
  rw [simRun]
  simp [h]

theorem simRun_ok_of_succ {n : ℕ} (h : (simRun cfg solver s0 (n + 1)).2 = true) :
    (simRun cfg solver s0 n).2 = true := by
  by_contra hne
  rw [Bool.not_eq_true] at hne
  rw [simRun_succ_false cfg solver s0 hne] at h
  rw [h] at hne
  cases hne

theorem simRun_ok_mono {m n : ℕ} (hm : m ≤ n) (h : (simRun cfg solver s0 n).2 = true) :
    (simRun cfg solver s0 m).2 = true := by
  induction n with
  | zero =>
    have : m = 0 := Nat.le_zero.mp hm
    rw [this]; exact h
  | succ n ih =>
    rcases Nat.lt_or_ge m (n + 1) with hlt | hge
    · exact ih (Nat.lt_succ_iff.mp hlt) (simRun_ok_of_succ cfg solver s0 h)
    · have : m = n + 1 := Nat.le_antisymm hm hge
      rw [this]; exact h

theorem simRun_frozen {k : ℕ} (h : (simRun cfg solver s0 k).2 = false) :
    ∀ n, k ≤ n → simRun cfg solver s0 n = simRun cfg solver s0 k := by
  intro n hn
  induction n, hn using Nat.le_induction with
  | base => rfl
  | succ n hn ih =>
    have hflag : (simRun cfg solver s0 n).2 = false := by rw [ih]; exact h
    rw [simRun_succ_false cfg solver s0 hflag, ih]

/-- On a failed solve, iteration i only records the pre-solve output
and the parameter assignments; nothing else changes. -/
theorem simStep_fail {i : ℕ} {s : SimState α nx nu ny}
    (h : solver (probAt s) = none) :
    simStep cfg solver i s =
      ({ s with ysim := Function.update s.ysim i (mulVec cfg.Cd s.x0),
                prob := probAt s }, false) := by
  rw [simStep, h]

/-- On a successful solve, iteration i behaves as the loop body of the
script: the solver's u[:, 0].value is extracted, recorded and applied. -/
theorem simStep_success {i : ℕ} {s : SimState α nx nu ny}
    (h : (simStep cfg solver i s).2 = true) :
    ∃ xv uv, solver (probAt s) = some (xv, uv) ∧
      simStep cfg solver i s =
        ({ s with ysim := Function.update s.ysim i (mulVec cfg.Cd s.x0),
                  prob := probAt s,
                  x0 := mulVec cfg.Ad s.x0 + mulVec cfg.Bd (uv 0),
                  uMPC := uv 0,
                  usim := Function.update s.usim i (uv 0),
                  xsim := Function.update s.xsim i
                    (mulVec cfg.Ad s.x0 + mulVec cfg.Bd (uv 0)) }, true) := by
  rcases hs : solver (probAt s) with - | ⟨xv, uv⟩
  · rw [simStep_fail cfg solver hs] at h
    cases h
  · exact ⟨xv, uv, rfl, by rw [simStep, hs]⟩

theorem simStep_fst_prob_data {i : ℕ} {s : SimState α nx nu ny} {b : Bool}
    {t : SimState α nx nu ny} (h : simStep cfg solver i s = (t, b)) :
    t.prob.data = s.prob.data := by
  rcases hs : solver (probAt s) with - | ⟨xv, uv⟩
  · rw [simStep_fail cfg solver hs] at h
    cases h
    rfl
  · rw [simStep, hs] at h
    cases h
    rfl

/-- The fixed problem structure is never modified by an iteration. -/
theorem simStep_prob_data {i : ℕ} {s : SimState α nx nu ny} :
    (simStep cfg solver i s).1.prob.data = s.prob.data := by
  rcases hs : simStep cfg solver i s with ⟨t, b⟩
  exact simStep_fst_prob_data cfg solver hs

theorem simRun_prob_data (n : ℕ) :
    (simRun cfg solver s0 n).1.prob.data = s0.prob.data := by
  induction n with
  | zero => rfl
  | succ n ih =>
    rcases hflag : (simRun cfg solver s0 n).2 with hf | ht
    · rw [simRun_succ_false cfg solver s0 hflag]; exact ih
    · rw [simRun_succ_true cfg solver s0 hflag, simStep_prob_data]; exact ih

/-- Entries of the traces already written at index i are never
overwritten by later iterations. -/
theorem trace_stable {m n : ℕ} (hmn : m ≤ n) :
    ∀ i < m,
      (simRun cfg solver s0 n).1.ysim i = (simRun cfg solver s0 m).1.ysim i ∧
      (simRun cfg solver s0 n).1.usim i = (simRun cfg solver s0 m).1.usim i ∧
      (simRun cfg solver s0 n).1.xsim i = (simRun cfg solver s0 m).1.xsim i := by
  induction n with
  | zero =>
    have : m = 0 := Nat.le_zero.mp hmn
    subst this
    exact fun i hi => ⟨rfl, rfl, rfl⟩
  | succ n ih =>
    rcases Nat.lt_or_ge m (n + 1) with hlt | hge
    · intro i hi
      have hm : m ≤ n := Nat.lt_succ_iff.mp hlt
      have hin : i ≠ n := by omega
      obtain ⟨hy, hu, hx⟩ := ih hm i hi
      rcases hflag : (simRun cfg solver s0 n).2 with hf | ht
      · rw [simRun_succ_false cfg solver s0 hflag]
        exact ⟨hy, hu, hx⟩
      · rw [simRun_succ_true cfg solver s0 hflag]
        rcases hs : solver (probAt (simRun cfg solver s0 n).1) with - | ⟨xv, uv⟩
        · rw [simStep_fail cfg solver hs]
          refine ⟨?_, hu, hx⟩
          simp only [Function.update_noteq hin]
          exact hy
        · obtain ⟨xv', uv', hs', heq⟩ :=
            simStep_success cfg solver (s := (simRun cfg solver s0 n).1) (i := n)
              (by rw [simStep, hs])
          rw [heq]
          refine ⟨?_, ?_, ?_⟩
          · simp only [Function.update_noteq hin]; exact hy
          · simp only [Function.update_noteq hin]; exact hu
          · simp only [Function.update_noteq hin]; exact hx
    · have : m = n + 1 := Nat.le_antisymm hmn hge
      subst this
      exact fun i hi => ⟨rfl, rfl, rfl⟩

end LoopLemmas

section RunLemmas

variable {nx nu ny : ℕ} (cfg : MPCConfig α nx nu ny) (solver : Solver α nx nu ny)
variable (x0 : Vec α nx) (ui : Vec α nu)

/-- What a successful iteration i of the closed loop does, stated on
the run: the solver is invoked on the parameters (current state,
previous applied input), u[:, 0].value is extracted, recorded in usim
and applied to the plant, ysim records the pre-solve output and xsim
the post-step state. -/
theorem runState_succ_facts {i : ℕ}
    (h : runOk cfg solver x0 ui (i + 1) = true) :
    ∃ xv uv,
      solver (probAt (runState cfg solver x0 ui i)) = some (xv, uv) ∧
      (runState cfg solver x0 ui (i + 1)).usim i = uv 0 ∧
      (runState cfg solver x0 ui (i + 1)).uMPC = uv 0 ∧
      (runState cfg solver x0 ui (i + 1)).x0 =
        mulVec cfg.Ad (runState cfg solver x0 ui i).x0 + mulVec cfg.Bd (uv 0) ∧
      (runState cfg solver x0 ui (i + 1)).ysim i =
        mulVec cfg.Cd (runState cfg solver x0 ui i).x0 ∧
      (runState cfg solver x0 ui (i + 1)).xsim i =
        (runState cfg solver x0 ui (i + 1)).x0 := by
  have hoki : (simRun cfg solver (initState cfg x0 ui) i).2 = true :=
    simRun_ok_of_succ cfg solver (initState cfg x0 ui) h
  have hstep := simRun_succ_true cfg solver (initState cfg x0 ui) hoki
  have hflag :
      (simStep cfg solver i (simRun cfg solver (initState cfg x0 ui) i).1).2 = true := by
    rw [← hstep]
    exact h
  obtain ⟨xv, uv, hs, heq⟩ := simStep_success cfg solver hflag
  refine ⟨xv, uv, hs, ?_, ?_, ?_, ?_, ?_⟩ <;>
    simp [runState, hstep, heq, Function.update_same]

/-- The previous-input parameter value used by the solve at step i is
uinit at i = 0 and the input recorded for step i - 1 afterwards. -/
theorem runState_uMPC_eq {i : ℕ} (h : runOk cfg solver x0 ui i = true) :
    (runState cfg solver x0 ui i).uMPC =
      prevApplied ui ((runState cfg solver x0 ui i).usim) i := by
  cases i with
  | zero => rfl
  | succ m =>
    obtain ⟨xv, uv, -, husim, huM, -⟩ := runState_succ_facts cfg solver x0 ui h
    rw [prevApplied, if_neg (Nat.succ_ne_zero m)]
    rw [huM, Nat.succ_sub_one, husim]

/-- Everything the feasibility-checking oracle returns satisfies the
QP's constraints at the instance's parameter values. -/
theorem feasSolver_sound {nx' nu' ny' : ℕ}
    (cand : QPInstance α nx' nu' ny' → (ℕ → Vec α nx') × (ℕ → Vec α nu')) :
    ∀ p xv uv, feasSolver cand p = some (xv, uv) →
      constraintsHold p.data p.x_init p.uminus1 xv uv := by
  intro p xv uv h
  unfold feasSolver at h
  split at h
  · rename_i hc
    injection h with h2
    rw [h2] at hc
    exact hc
  · cases h

end RunLemmas

section Claims

variable {nx nu ny : ℕ}

/-- Claim C1, counterexample: a concrete point (two states, Cd = [2 0],
Dd = 0, ymin = -1, ymax = 1, horizon 1) that satisfies every constraint
the formulator emits, yet whose predicted output Cd x₀ + Dd u₀ = 2
violates the output bound: the QP's inequality constraints bound the
state, not the output, so the claim as stated is false. -/
theorem C1_counterexample :
    constraintsHold cfgC1 xinitC1 um1C1 xC1 uC1 ∧
    ¬ specOutputBounds cfgC1 xC1 uC1 := by
  decide

/-- Claim C1, amended: in the QP built by the formulator, for every
k = 0 .. Np-1 the inequality constraints bound the predicted state,
ymin ≤ xₖ ≤ ymax elementwise (the length-1 bound arrays broadcast over
the state components), together with umin ≤ uₖ ≤ umax on the input. -/
theorem C1_state_and_input_bounds (cfg : MPCConfig α nx nu ny)
    (xi : Vec α nx) (um : Vec α nu) (x : ℕ → Vec α nx) (u : ℕ → Vec α nu)
    (h : constraintsHold cfg xi um x u) :
    ∀ k < cfg.Np,
      (∀ j, cfg.ymin ≤ x k j ∧ x k j ≤ cfg.ymax) ∧
      (∀ j, cfg.umin ≤ u k j ∧ u k j ≤ cfg.umax) := by
  intro k hk
  obtain ⟨-, hs⟩ := h
  obtain ⟨-, h1, h2, h3, h4, -⟩ := hs k hk
  exact ⟨fun j => ⟨h1 j, h2 j⟩, fun j => ⟨h3 j, h4 j⟩⟩

/-- Witness for the amended C1 theorem at the concrete feasible point. -/
theorem C1_state_and_input_bounds_witness :
    constraintsHold cfgC1 xinitC1 um1C1 xC1 uC1 ∧
    ∀ k < cfgC1.Np,
      (∀ j, cfgC1.ymin ≤ xC1 k j ∧ xC1 k j ≤ cfgC1.ymax) ∧
      (∀ j, cfgC1.umin ≤ uC1 k j ∧ uC1 k j ≤ cfgC1.umax) :=
  ⟨by decide, C1_state_and_input_bounds cfgC1 xinitC1 um1C1 xC1 uC1 (by decide)⟩

/-- Claim C3: for a nonempty horizon the QP's constraints are exactly
the equalities, the interval bounds, and the rate constraints
Δumin ≤ u₀ - u₋₁ ≤ Δumax at k = 0 (u₋₁ the parametric previous input)
and Δumin ≤ uₖ - uₖ₋₁ ≤ Δumax for k = 1 .. Np-1; the equivalence with
the explicit list shows no rate constraint couples u_{Np-1} to
anything beyond the horizon. -/
theorem C3_rate_constraints (cfg : MPCConfig α nx nu ny)
    (xi : Vec α nx) (um : Vec α nu) (x : ℕ → Vec α nx) (u : ℕ → Vec α nu)
    (hNp : 0 < cfg.Np) :
    constraintsHold cfg xi um x u ↔ specConstraints cfg xi um x u := by
  unfold constraintsHold specConstraints stepConstraints
  constructor
  · rintro ⟨h0, hk⟩
    refine ⟨⟨h0, fun k hkn => (hk k hkn).1⟩,
      fun k hkn =>
        ⟨(hk k hkn).2.1, (hk k hkn).2.2.1, (hk k hkn).2.2.2.1, (hk k hkn).2.2.2.2.1⟩,
      ?_, ?_⟩
    · have h5 := (hk 0 hNp).2.2.2.2.2
      rw [if_neg (lt_irrefl 0)] at h5
      exact h5
    · intro k hkn hk1
      have hk1' : 0 < k := hk1
      have h5 := (hk k hkn).2.2.2.2.2
      rw [if_pos hk1'] at h5
      exact h5
  · rintro ⟨⟨h0, hdyn⟩, hb, hr0, hrk⟩
    refine ⟨h0, fun k hkn => ⟨hdyn k hkn, (hb k hkn).1, (hb k hkn).2.1,
      (hb k hkn).2.2.1, (hb k hkn).2.2.2, ?_⟩⟩
    rcases Nat.eq_zero_or_pos k with hk0 | hkpos
    · subst hk0
      rw [if_neg (lt_irrefl 0)]
      exact hr0
    · rw [if_pos hkpos]
      exact hrk k hkn hkpos

/-- Witness for C3 at a concrete configuration with horizon 1. -/
theorem C3_rate_constraints_witness :
    0 < cfgC1.Np ∧
    (constraintsHold cfgC1 xinitC1 um1C1 xC1 uC1 ↔
      specConstraints cfgC1 xinitC1 um1C1 xC1 uC1) :=
  ⟨by decide, C3_rate_constraints cfgC1 xinitC1 um1C1 xC1 uC1 (by decide)⟩

/-- Claim C4: for a nonempty horizon, and with Dd = 0 (the script's
plant is a strictly proper transfer function, so its state-space
realization has zero feedthrough and the predicted output is
yₖ = C xₖ + D uₖ = C xₖ), the minimized objective equals the sum of
the output-tracking terms with terminal weight QyN, the input-effort
terms, and the input-rate penalty anchored at the parametric previous
input. -/
theorem C4_objective_decomposition (cfg : MPCConfig α nx nu ny)
    (um : Vec α nu) (x : ℕ → Vec α nx) (u : ℕ → Vec α nu)
    (hNp : 0 < cfg.Np) (hD : cfg.Dd = fun _ _ => 0) :
    objective cfg um x u = specObjective cfg um x u := by
  have hstage : ∀ k, (fun i => specOutput cfg x u k i - cfg.r) = yErr cfg x k := by
    intro k
    funext i
    simp [specOutput, yErr, hD, mulVec]
  have h00 : rateCost cfg um u 0 = quad_form (u 0 - um) cfg.QDu := by
    simp [rateCost]
  have hIco : ∑ k in Finset.Ico 1 cfg.Np, rateCost cfg um u k
      = ∑ k in Finset.Ico 1 cfg.Np, quad_form (u k - u (k - 1)) cfg.QDu := by
    refine Finset.sum_congr rfl ?_
    intro k hk
    have hk1 : 0 < k := (Finset.mem_Ico.mp hk).1
    simp [rateCost, hk1]
  have hrate : ∑ k in Finset.range cfg.Np, rateCost cfg um u k
      = quad_form (u 0 - um) cfg.QDu
        + ∑ k in Finset.Ico 1 cfg.Np, quad_form (u k - u (k - 1)) cfg.QDu := by
    rw [Finset.range_eq_Ico, Finset.sum_eq_sum_Ico_succ_bot hNp]
    simp only [Nat.zero_add]
    rw [h00, hIco]
  unfold objective specObjective
  rw [Finset.sum_add_distrib, Finset.sum_add_distrib, hrate]
  have hsum :
      (∑ k in Finset.range cfg.Np,
        quad_form (fun i => specOutput cfg x u k i - cfg.r) cfg.Qy)
      = ∑ k in Finset.range cfg.Np, quad_form (yErr cfg x k) cfg.Qy :=
    Finset.sum_congr rfl fun k _ => by rw [hstage k]
  rw [hsum]
  ring

/-- Witness for C4 at the concrete configuration (horizon 1, Dd = 0). -/
theorem C4_objective_decomposition_witness :
    (0 < cfgC1.Np ∧ cfgC1.Dd = fun _ _ => 0) ∧
    objective cfgC1 um1C1 xC1 uC1 = specObjective cfgC1 um1C1 xC1 uC1 :=
  ⟨⟨by decide, rfl⟩,
   C4_objective_decomposition cfgC1 um1C1 xC1 uC1 (by decide) rfl⟩

/-- Claim C5: the QP's equality constraints force x₀ = x_init and the
dynamics, so any state trajectory satisfying the constraints agrees,
up to the horizon, with the trajectory the dynamics determine from
x_init and the input trajectory. -/
theorem C5_dynamics_determine_trajectory (cfg : MPCConfig α nx nu ny)
    (xi : Vec α nx) (um : Vec α nu) (x : ℕ → Vec α nx) (u : ℕ → Vec α nu)
    (h : constraintsHold cfg xi um x u) :
    ∀ k ≤ cfg.Np, x k = predTraj cfg xi u k := by
  obtain ⟨h0, hk⟩ := h
  intro k hkNp
  induction k with
  | zero => exact h0
  | succ m ih =>
    have hm : m < cfg.Np := Nat.lt_of_succ_le hkNp
    have hdyn := (hk m hm).1
    rw [predTraj, ← ih (le_of_lt hm)]
    exact hdyn

/-- Witness for C5 at the concrete feasible point. -/
theorem C5_dynamics_determine_trajectory_witness :
    constraintsHold cfgC1 xinitC1 um1C1 xC1 uC1 ∧
    ∀ k ≤ cfgC1.Np, xC1 k = predTraj cfgC1 xinitC1 uC1 k :=
  ⟨by decide,
   C5_dynamics_determine_trajectory cfgC1 xinitC1 um1C1 xC1 uC1 (by decide)⟩

/-- Claim C2: if every solve up to step i succeeded and the solve at
step i fails, then every longer run reports the failure (runOk is
false, never silently swallowed), and the remaining iterations are
aborted: the plant state is never advanced with an input from the
failed solve, the stored previous input is untouched, and no input is
recorded for step i or any later step. -/
theorem C2_solver_failure_aborts (cfg : MPCConfig α nx nu ny)
    (solver : Solver α nx nu ny) (x0 : Vec α nx) (ui : Vec α nu) (i : ℕ)
    (hok : runOk cfg solver x0 ui i = true)
    (hfail : solver (probAt (runState cfg solver x0 ui i)) = none) :
    ∀ n, i < n →
      runOk cfg solver x0 ui n = false ∧
      (runState cfg solver x0 ui n).x0 = (runState cfg solver x0 ui i).x0 ∧
      (runState cfg solver x0 ui n).uMPC = (runState cfg solver x0 ui i).uMPC ∧
      (runState cfg solver x0 ui n).usim = (runState cfg solver x0 ui i).usim := by
  intro n hn
  have hfail2 : (simRun cfg solver (initState cfg x0 ui) (i + 1)).2 = false := by
    rw [simRun_succ_true cfg solver (initState cfg x0 ui) hok]
    show (simStep cfg solver i (runState cfg solver x0 ui i)).2 = false
    rw [simStep_fail cfg solver hfail]
  have hfr := simRun_frozen cfg solver (initState cfg x0 ui) hfail2 n hn
  have hruns : simRun cfg solver (initState cfg x0 ui) n
      = simStep cfg solver i (runState cfg solver x0 ui i) := by
    rw [hfr]
    exact simRun_succ_true cfg solver (initState cfg x0 ui) hok
  rw [simStep_fail cfg solver hfail] at hruns
  refine ⟨?_, ?_, ?_, ?_⟩
  · show (simRun cfg solver (initState cfg x0 ui) n).2 = false
    rw [hruns]
  · show (simRun cfg solver (initState cfg x0 ui) n).1.x0 = _
    rw [hruns]
  · show (simRun cfg solver (initState cfg x0 ui) n).1.uMPC = _
    rw [hruns]
  · show (simRun cfg solver (initState cfg x0 ui) n).1.usim = _
    rw [hruns]

/-- Witness for C2: the always-failing oracle at step 0, run length 3. -/
theorem C2_solver_failure_aborts_witness :
    runOk cfgW noneSolver x0W uiW 0 = true ∧
    noneSolver (probAt (runState cfgW noneSolver x0W uiW 0)) = none ∧
    (runOk cfgW noneSolver x0W uiW 3 = false ∧
      (runState cfgW noneSolver x0W uiW 3).x0 = (runState cfgW noneSolver x0W uiW 0).x0 ∧
      (runState cfgW noneSolver x0W uiW 3).uMPC =
        (runState cfgW noneSolver x0W uiW 0).uMPC ∧
      (runState cfgW noneSolver x0W uiW 3).usim =
        (runState cfgW noneSolver x0W uiW 0).usim) :=
  ⟨rfl, rfl, C2_solver_failure_aborts cfgW noneSolver x0W uiW 0 rfl rfl 3 (by decide)⟩

/-- Claim C6: the u₋₁ parameter handed to the solve at step 0 is uinit,
and the one handed to the solve at step i + 1 is exactly the input the
loop extracted and applied at step i (the value recorded in usim[i]). -/
theorem C6_uminus1_invariant (cfg : MPCConfig α nx nu ny)
    (solver : Solver α nx nu ny) (x0 : Vec α nx) (ui : Vec α nu) :
    (probAt (runState cfg solver x0 ui 0)).uminus1 = ui ∧
    ∀ i, runOk cfg solver x0 ui (i + 1) = true →
      (probAt (runState cfg solver x0 ui (i + 1))).uminus1 =
        (runState cfg solver x0 ui (i + 1)).usim i := by
  refine ⟨rfl, ?_⟩
  intro i h
  obtain ⟨xv, uv, -, husim, huM, -⟩ := runState_succ_facts cfg solver x0 ui h
  show (runState cfg solver x0 ui (i + 1)).uMPC = _
  rw [huM, husim]

/-- Witness for C6 on a one-step run with the feasibility oracle. -/
theorem C6_uminus1_invariant_witness :
    runOk cfgW (feasSolver zeroCand) x0W uiW 1 = true ∧
    (probAt (runState cfgW (feasSolver zeroCand) x0W uiW 1)).uminus1 =
      (runState cfgW (feasSolver zeroCand) x0W uiW 1).usim 0 :=
  ⟨by decide,
   (C6_uminus1_invariant cfgW (feasSolver zeroCand) x0W uiW).2 0 (by decide)⟩

/-- Claim C7: if the horizon is nonempty and every value the solver
returns is feasible for the QP at the parameters it was given, then
every input the closed loop records satisfies the input bounds, and
its increment over the previously applied input (uinit before step 0)
satisfies the rate bounds — exactly, elementwise. -/
theorem C7_applied_input_safety (cfg : MPCConfig α nx nu ny)
    (solver : Solver α nx nu ny) (x0 : Vec α nx) (ui : Vec α nu) (n : ℕ)
    (hNp : 0 < cfg.Np)
    (hsound : ∀ p xv uv, solver p = some (xv, uv) →
        constraintsHold p.data p.x_init p.uminus1 xv uv)
    (hok : runOk cfg solver x0 ui n = true) :
    ∀ i < n, ∀ j,
      (cfg.umin ≤ (runState cfg solver x0 ui n).usim i j ∧
        (runState cfg solver x0 ui n).usim i j ≤ cfg.umax) ∧
      (cfg.Dumin ≤ (runState cfg solver x0 ui n).usim i j
          - prevApplied ui ((runState cfg solver x0 ui n).usim) i j ∧
        (runState cfg solver x0 ui n).usim i j
          - prevApplied ui ((runState cfg solver x0 ui n).usim) i j ≤ cfg.Dumax) := by
  intro i hi j
  have hoki1 : runOk cfg solver x0 ui (i + 1) = true :=
    simRun_ok_mono cfg solver (initState cfg x0 ui) (Nat.succ_le_of_lt hi) hok
  have hoki : runOk cfg solver x0 ui i = true :=
    simRun_ok_of_succ cfg solver (initState cfg x0 ui) hoki1
  obtain ⟨xv, uv, hs, husim, -, -, -, -⟩ := runState_succ_facts cfg solver x0 ui hoki1
  have hc := hsound _ _ _ hs
  have hdata : (probAt (runState cfg solver x0 ui i)).data = cfg :=
    simRun_prob_data cfg solver (initState cfg x0 ui) i
  rw [hdata] at hc
  obtain ⟨-, hcs⟩ := hc
  obtain ⟨-, -, -, hu1, hu2, hrate⟩ := hcs 0 hNp
  rw [if_neg (lt_irrefl 0)] at hrate
  obtain ⟨hr1, hr2⟩ := hrate
  have hstab := trace_stable cfg solver (initState cfg x0 ui)
    (Nat.succ_le_of_lt hi) i (Nat.lt_succ_self i)
  have husim_n : (runState cfg solver x0 ui n).usim i = uv 0 := by
    rw [show (runState cfg solver x0 ui n).usim i
        = (runState cfg solver x0 ui (i + 1)).usim i from hstab.2.1, husim]
  have hprev : prevApplied ui ((runState cfg solver x0 ui n).usim) i
      = (runState cfg solver x0 ui i).uMPC := by
    rw [runState_uMPC_eq cfg solver x0 ui hoki]
    unfold prevApplied
    cases i with
    | zero => rfl
    | succ m =>
      rw [if_neg (Nat.succ_ne_zero m), if_neg (Nat.succ_ne_zero m)]
      have hstab2 := trace_stable cfg solver (initState cfg x0 ui)
        (le_of_lt hi) m (Nat.lt_succ_self m)
      rw [Nat.succ_sub_one]
      exact hstab2.2.1
  rw [husim_n, hprev]
  exact ⟨⟨hu1 j, hu2 j⟩, hr1 j, hr2 j⟩

/-- Witness for C7 on a two-step run with the feasibility oracle. -/
theorem C7_applied_input_safety_witness :
    (0 < cfgW.Np ∧ runOk cfgW (feasSolver zeroCand) x0W uiW 2 = true) ∧
    ∀ i < 2, ∀ j,
      (cfgW.umin ≤ (runState cfgW (feasSolver zeroCand) x0W uiW 2).usim i j ∧
        (runState cfgW (feasSolver zeroCand) x0W uiW 2).usim i j ≤ cfgW.umax) ∧
      (cfgW.Dumin ≤ (runState cfgW (feasSolver zeroCand) x0W uiW 2).usim i j
          - prevApplied uiW ((runState cfgW (feasSolver zeroCand) x0W uiW 2).usim) i j ∧
        (runState cfgW (feasSolver zeroCand) x0W uiW 2).usim i j
          - prevApplied uiW ((runState cfgW (feasSolver zeroCand) x0W uiW 2).usim) i j
          ≤ cfgW.Dumax) :=
  ⟨⟨by decide, by decide⟩,
   C7_applied_input_safety cfgW (feasSolver zeroCand) x0W uiW 2 (by decide)
     (feasSolver_sound zeroCand) (by decide)⟩

/-- Claim C8: the closed loop is deterministic — with the solver
modelled as a function of the problem instance, two runs with
componentwise identical configurations, initial states, initial
previous inputs and lengths produce identical results (states and all
traces). -/
theorem C8_determinism (cfg1 cfg2 : MPCConfig α nx nu ny)
    (solver : Solver α nx nu ny) (x01 x02 : Vec α nx) (ui1 ui2 : Vec α nu)
    (n1 n2 : ℕ)
    (hAd : cfg1.Ad = cfg2.Ad) (hBd : cfg1.Bd = cfg2.Bd) (hCd : cfg1.Cd = cfg2.Cd)
    (hDd : cfg1.Dd = cfg2.Dd) (hQy : cfg1.Qy = cfg2.Qy) (hQyN : cfg1.QyN = cfg2.QyN)
    (hQu : cfg1.Qu = cfg2.Qu) (hQDu : cfg1.QDu = cfg2.QDu) (hr : cfg1.r = cfg2.r)
    (hymin : cfg1.ymin = cfg2.ymin) (hymax : cfg1.ymax = cfg2.ymax)
    (humin : cfg1.umin = cfg2.umin) (humax : cfg1.umax = cfg2.umax)
    (hDumin : cfg1.Dumin = cfg2.Dumin) (hDumax : cfg1.Dumax = cfg2.Dumax)
    (hNp : cfg1.Np = cfg2.Np)
    (hx : x01 = x02) (hui : ui1 = ui2) (hn : n1 = n2) :
    simRun cfg1 solver (initState cfg1 x01 ui1) n1
      = simRun cfg2 solver (initState cfg2 x02 ui2) n2 := by
  have hcfg : cfg1 = cfg2 := by
    cases cfg1
    cases cfg2
    simp_all
  rw [hcfg, hx, hui, hn]

/-- Witness for C8 at a concrete run. -/
theorem C8_determinism_witness :
    simRun cfgW noneSolver (initState cfgW x0W uiW) 1
      = simRun cfgW noneSolver (initState cfgW x0W uiW) 1 :=
  C8_determinism cfgW cfgW noneSolver x0W x0W uiW uiW 1 1
    rfl rfl rfl rfl rfl rfl rfl rfl rfl rfl rfl rfl rfl rfl rfl rfl rfl rfl rfl

/-- Claim C9: the QP's fixed structure is built once and never
modified by the loop: after any number of iterations the problem
object's data is still the original configuration, and the instance
handed to the solver differs from it only in the two parameter values
x_init and uminus1 (set to the current state and previous input). -/
theorem C9_qp_structure_frame (cfg : MPCConfig α nx nu ny)
    (solver : Solver α nx nu ny) (x0 : Vec α nx) (ui : Vec α nu) (n : ℕ) :
    (runState cfg solver x0 ui n).prob.data = cfg ∧
    probAt (runState cfg solver x0 ui n) =
      { data := cfg, x_init := (runState cfg solver x0 ui n).x0,
        uminus1 := (runState cfg solver x0 ui n).uMPC } := by
  have h : (runState cfg solver x0 ui n).prob.data = cfg :=
    simRun_prob_data cfg solver (initState cfg x0 ui) n
  exact ⟨h, by simp [probAt, h]⟩

/-- Claim C10: assuming all solves succeed, row i of the trace pairs
the output of the pre-step state with the post-step state: ysim[i] is
Cd times the state at the start of step i (no Dd uᵢ term), while
xsim[i] is Ad xᵢ + Bd uᵢ, i.e. the state at the start of step i + 1 —
so the initial state itself is never recorded in xsim. -/
theorem C10_trace_alignment (cfg : MPCConfig α nx nu ny)
    (solver : Solver α nx nu ny) (x0 : Vec α nx) (ui : Vec α nu) (n : ℕ)
    (hok : runOk cfg solver x0 ui n = true) :
    ∀ i < n,
      (runState cfg solver x0 ui n).ysim i =
        mulVec cfg.Cd ((runState cfg solver x0 ui i).x0) ∧
      (runState cfg solver x0 ui n).xsim i =
        mulVec cfg.Ad ((runState cfg solver x0 ui i).x0)
          + mulVec cfg.Bd ((runState cfg solver x0 ui n).usim i) ∧
      (runState cfg solver x0 ui n).xsim i = (runState cfg solver x0 ui (i + 1)).x0 := by
  intro i hi
  have hoki1 : runOk cfg solver x0 ui (i + 1) = true :=
    simRun_ok_mono cfg solver (initState cfg x0 ui) (Nat.succ_le_of_lt hi) hok
  obtain ⟨xv, uv, -, husim, -, hx0, hys, hxs⟩ :=
    runState_succ_facts cfg solver x0 ui hoki1
  have hstab := trace_stable cfg solver (initState cfg x0 ui)
    (Nat.succ_le_of_lt hi) i (Nat.lt_succ_self i)
  refine ⟨?_, ?_, ?_⟩
  · rw [show (runState cfg solver x0 ui n).ysim i
        = (runState cfg solver x0 ui (i + 1)).ysim i from hstab.1, hys]
  · rw [show (runState cfg solver x0 ui n).xsim i
        = (runState cfg solver x0 ui (i + 1)).xsim i from hstab.2.2, hxs, hx0,
      show (runState cfg solver x0 ui n).usim i
        = (runState cfg solver x0 ui (i + 1)).usim i from hstab.2.1, husim]
  · rw [show (runState cfg solver x0 ui n).xsim i
        = (runState cfg solver x0 ui (i + 1)).xsim i from hstab.2.2, hxs]

/-- Witness for C10 on a one-step run with the feasibility oracle. -/
theorem C10_trace_alignment_witness :
    runOk cfgW (feasSolver zeroCand) x0W uiW 1 = true ∧
    ∀ i < 1,
      (runState cfgW (feasSolver zeroCand) x0W uiW 1).ysim i =
        mulVec cfgW.Cd ((runState cfgW (feasSolver zeroCand) x0W uiW i).x0) ∧
      (runState cfgW (feasSolver zeroCand) x0W uiW 1).xsim i =
        mulVec cfgW.Ad ((runState cfgW (feasSolver zeroCand) x0W uiW i).x0)
          + mulVec cfgW.Bd ((runState cfgW (feasSolver zeroCand) x0W uiW 1).usim i) ∧
      (runState cfgW (feasSolver zeroCand) x0W uiW 1).xsim i =
        (runState cfgW (feasSolver zeroCand) x0W uiW (i + 1)).x0 :=
  ⟨by decide, C10_trace_alignment cfgW (feasSolver zeroCand) x0W uiW 1 (by decide)⟩

end Claims

end MPC
